import Mathlib

/-!
Shallow embedding of the collaborative to-do application in `src/src/App.tsx`.

The application keeps an in-memory list of tasks (`Todo[]`), mutates it on user
actions (`addTodo`, `toggleTodo`, `deleteTodo`, `handleDragEnd`), writes the
whole list to a remote store after every mutation, and replaces the local list
whenever the remote store pushes a snapshot (the `onValue` callbacks).

Modelling conventions:
  * `Date.now()` is passed in as an explicit `now : Int` argument (the source
    reads the clock inside each operation; within one operation the source may
    call `Date.now()` once per element, but every claim only compares stamps
    across operations, so a single per-operation reading is used).
  * the module-level `clientId` and `sessionId` constants are passed in as
    explicit arguments.
  * `crypto.randomUUID()` in `addTodo` is passed in as `freshId`.
  * a Firebase snapshot value (`snapshot.val()`) is an arbitrary JSON value,
    modelled by the inductive `JSVal` (`jnull` for null/absent, objects as
    key/value pair lists in JS enumeration order); the `todos` callback's
    `if (!val)` is JS falsiness, and `Object.values` and the sort are
    modelled on `JSVal`, so malformed (non-task-shaped) snapshots are
    representable.
  * JS `Array.prototype.sort` with comparator `(a, b) => a.order - b.order`
    is a stable ascending sort by the `order` property; it is modelled by
    `List.mergeSort` on the numeric `order` key, which is stable and sorts
    ascending. On a value with no numeric `order` property the JS comparator
    returns `NaN`, which `SortCompare` maps to `+0`, leaving the final order
    of such malformed elements implementation-defined; the model fixes one
    outcome by defaulting the missing key to 0. No theorem depends on how
    malformed elements are ordered, only on whether they are kept.
  * an operation that can return early without touching any state is given
    an `Option` result: `none` models the early return (no local state
    update and no remote write), `some l` models `setTodos l` followed by
    `saveToFirebase l`.
-/

namespace TodoApp

/-- The `Todo` record type of `src/src/App.tsx` (lines 29-36). -/
structure Todo where
  id : String
  text : String
  done : Bool
  order : Int
  updatedAt : Int
  updatedBy : String
  deriving DecidableEq

/-- The `RemoteDragState` record type of `src/src/App.tsx` (lines 38-42). -/
structure RemoteDragState where
  itemId : String
  overId : Option String
  sessionId : String
  deriving DecidableEq

/-- JS `Array.prototype.splice` start-index normalization for an array of
length `len`: a negative start counts from the end (clamped at 0), a
non-negative start is clamped at `len`. -/
def spliceStart (len : Nat) (start : Int) : Nat :=
  if start < 0 then ((len : Int) + start).toNat else min start.toNat len

/-- JS `newArray.splice(start, 1)`: removes one element at the normalized
index, returning the remaining array and the removed element
(`none` when the index is past the end, in which case JS removes nothing). -/
def spliceRemoveOne (l : List Todo) (start : Int) : List Todo × Option Todo :=
  let s := spliceStart l.length start
  match l[s]? with
  | some a => (l.eraseIdx s, some a)
  | none => (l, none)

/-- JS `arr.splice(start, 0, a)`: inserts `a` at the normalized index. -/
def spliceInsert (l : List Todo) (start : Int) (a : Todo) : List Todo :=
  l.insertIdx (spliceStart l.length start) a

/-- Stands in for the JS `undefined` that
`newArray.splice(from, 1)[0]` yields when the inner splice removed nothing
(reachable from `handleDragEnd` only when the list is empty); the subsequent
`{...t, order: i+1, updatedAt: ..., updatedBy: ...}` spread then produces an
object with no own `id`/`text`/`done` values, represented here by defaults.
No theorem below depends on this corner. -/
def undefinedSpread : Todo :=
  { id := "", text := "", done := false, order := 0, updatedAt := 0, updatedBy := "" }

/-- Models `arrayMove` from `@dnd-kit/sortable` (imported by `src/src/App.tsx`):
`newArray.splice(to < 0 ? newArray.length + to : to, 0, newArray.splice(from, 1)[0])`.
JS evaluates the insertion position against the ORIGINAL length (argument
evaluation precedes the inner splice's mutation), then the outer splice
normalizes it against the shortened array. -/
def arrayMove (l : List Todo) (fromIdx toIdx : Int) : List Todo :=
  let insPos : Int := if toIdx < 0 then (l.length : Int) + toIdx else toIdx
  match spliceRemoveOne l fromIdx with
  | (rest, some a) => spliceInsert rest insPos a
  | (rest, none) => spliceInsert rest insPos undefinedSpread

/-- JS `todos.findIndex((t) => t.id === i)` before the `-1` encoding:
index of the first task whose `id` equals `i`, `none` if there is none. -/
def findIdxId (i : String) : List Todo → Option Nat
  | [] => none
  | t :: ts => if t.id = i then some 0 else (findIdxId i ts).map (· + 1)

/-- JS `todos.findIndex((t) => t.id === i)`: `-1` when no task matches. -/
def findIndexId (l : List Todo) (i : String) : Int :=
  match findIdxId i l with
  | some n => (n : Int)
  | none => -1

/-- The `moved.map((t, i) => ({ ...t, order: i + 1, updatedAt: Date.now(),
updatedBy: clientId }))` step of `handleDragEnd` (lines 280-285), with the
position counter made explicit. -/
def restamp (now : Int) (cid : String) : Nat → List Todo → List Todo
  | _, [] => []
  | i, t :: ts =>
    { t with order := (i : Int) + 1, updatedAt := now, updatedBy := cid }
      :: restamp now cid (i + 1) ts

/-- Models `handleDragEnd` of `src/src/App.tsx` (lines 267-289), restricted to its
effect on the task list. `over` is `none` when the drop had no target
(`if (!over || active.id === over.id) return;`); otherwise the code looks up
both indices with `findIndex` (no presence check: a missing id yields `-1`),
calls `arrayMove`, and renumbers/re-stamps every task. -/
def handleDragEnd (todos : List Todo) (activeId : String) (over : Option String)
    (now : Int) (cid : String) : List Todo :=
  match over with
  | none => todos
  | some overId =>
    if activeId = overId then todos
    else
      let oldIndex := findIndexId todos activeId
      let newIndex := findIndexId todos overId
      let moved := arrayMove todos oldIndex newIndex
      restamp now cid 0 moved

/-- JS `String.prototype.trim`: removes leading and trailing whitespace.
Modelled over the string's character list, with `Char.isWhitespace` standing
for the JS WhiteSpace/LineTerminator character classes (they agree on every
character the claims exercise). -/
def jsTrim (s : String) : String :=
  ⟨((s.data.dropWhile Char.isWhitespace).reverse.dropWhile Char.isWhitespace).reverse⟩

/-- Models `todos.length ? Math.max(...todos.map((t) => t.order)) : 0`
from `addTodo` (line 215). `Math.max` of a non-empty argument list is the
fold of binary max over it. -/
def maxOrderOf (todos : List Todo) : Int :=
  match todos.map Todo.order with
  | [] => 0
  | o :: os => os.foldl max o

/-- Models `addTodo` of `src/src/App.tsx` (lines 212-229), restricted to its effect
on the task list and the remote write: `none` models the early return on a
whitespace-only input (no task created, no write), `some next` models
`setTodos(next); saveToFirebase(next)`. -/
def addTodo (todos : List Todo) (text : String) (freshId : String)
    (now : Int) (cid : String) : Option (List Todo) :=
  let trimmed := jsTrim text
  if trimmed = "" then none
  else
    some (todos ++
      [{ id := freshId, text := trimmed, done := false,
         order := maxOrderOf todos + 1, updatedAt := now, updatedBy := cid }])

/-- Models `toggleTodo` of `src/src/App.tsx` (lines 231-239): maps over the list,
flipping `done` and re-stamping `updatedAt`/`updatedBy` on every task whose
id matches. (The resulting list is always written to the remote store.) -/
def toggleTodo (todos : List Todo) (i : String) (now : Int) (cid : String) : List Todo :=
  todos.map fun t =>
    if t.id = i then { t with done := !t.done, updatedAt := now, updatedBy := cid } else t

/-- Models `deleteTodo` of `src/src/App.tsx` (lines 241-245):
`todos.filter((t) => t.id !== id)`. -/
def deleteTodo (todos : List Todo) (i : String) : List Todo :=
  todos.filter fun t => t.id ≠ i

/-- JSON values as delivered by `snapshot.val()`: null, booleans, numbers,
strings, or objects (key/value pairs in JS enumeration order). Numbers are
modelled as integers, as everywhere in this development. -/
inductive JSVal where
  | jnull : JSVal
  | jbool : Bool → JSVal
  | jnum : Int → JSVal
  | jstr : String → JSVal
  | jobj : List (String × JSVal) → JSVal

/-- JS falsiness (`!val`): null, `false`, `0` and `""` are falsy; every
object is truthy. -/
def jsFalsy : JSVal → Bool
  | JSVal.jnull => true
  | JSVal.jbool b => !b
  | JSVal.jnum n => n = 0
  | JSVal.jstr s => s = ""
  | JSVal.jobj _ => false

/-- JS `Object.values`: the values of an object; for a string, its
characters as one-character strings; empty for other primitives. -/
def jsObjectValues : JSVal → List JSVal
  | JSVal.jobj kvs => kvs.map Prod.snd
  | JSVal.jstr s => s.data.map fun c => JSVal.jstr (String.singleton c)
  | _ => []

/-- JS property lookup on an object's key/value pairs (object keys are
unique, so the first match is the property). -/
def jsLookup (k : String) : List (String × JSVal) → Option JSVal
  | [] => none
  | (k', v) :: rest => if k' = k then some v else jsLookup k rest

/-- The sort key `a.order` read by the comparator of line 158: the numeric
`order` property of an object. A value with no numeric `order` property
makes the JS comparator return `NaN`, i.e. `SortCompare` treats the pair as
equal and the overall order of such elements is implementation-defined; the
model fixes one outcome by defaulting to 0 (see the module conventions). -/
def jsOrderKey (v : JSVal) : Int :=
  match v with
  | JSVal.jobj kvs =>
    match jsLookup "order" kvs with
    | some (JSVal.jnum n) => n
    | _ => 0
  | _ => 0

/-- A task as Firebase delivers it inside the `todos` snapshot: the JSON
object with the six fields of `Todo`. -/
def todoToJS (t : Todo) : JSVal :=
  JSVal.jobj [("id", JSVal.jstr t.id), ("text", JSVal.jstr t.text),
    ("done", JSVal.jbool t.done), ("order", JSVal.jnum t.order),
    ("updatedAt", JSVal.jnum t.updatedAt), ("updatedBy", JSVal.jstr t.updatedBy)]

/-- The `todos` `onValue` callback of `src/src/App.tsx` (lines 149-164):
`const val = snapshot.val(); if (!val) { setTodos([]); return; }` — only a
FALSY value resets the list — then
`Object.values(val)` sorted by `(a, b) => a.order - b.order` replaces the
local list, whatever shape the values have (the `as Todo[]` cast checks
nothing at runtime). -/
def onTodosSnapshot (val : JSVal) : List JSVal :=
  if jsFalsy val then []
  else (jsObjectValues val).mergeSort fun a b => jsOrderKey a ≤ jsOrderKey b

/-- The `dragging` `onValue` callback of `src/src/App.tsx` (lines 174-191):
a null snapshot or a record carrying this session's own `sessionId` exposes
`none`; a record from another session is exposed unchanged. -/
def onDraggingSnapshot (raw : Option RemoteDragState) (sid : String) :
    Option RemoteDragState :=
  match raw with
  | none => none
  | some v => if v.sessionId ≠ sid then some v else none

/-- The fields of a task that the presentation layer identifies it by:
everything except `order`, `updatedAt`, `updatedBy`. -/
def identityView (t : Todo) : String × String × Bool :=
  (t.id, t.text, t.done)

/-- The fields of a task visible in the rendered list (id, text, done flag,
position): everything except the `updatedAt`/`updatedBy` stamps. -/
def listedView (t : Todo) : String × String × Bool × Int :=
  (t.id, t.text, t.done, t.order)

/-- Lemma: `findIdxId` finds an index when the id occurs in the list, and the task
at that index carries the id. -/
theorem findIdxId_mem {i : String} :
    ∀ {l : List Todo}, i ∈ l.map Todo.id →
      ∃ n, findIdxId i l = some n ∧ ∃ h : n < l.length, (l.get ⟨n, h⟩).id = i
  | [], h => by simp at h
  | t :: ts, h => by
    by_cases ht : t.id = i
    · exact ⟨0, by simp [findIdxId, ht], Nat.succ_pos _, ht⟩
    · have hmem : i ∈ ts.map Todo.id := by
        simp only [List.map_cons, List.mem_cons] at h
        rcases h with h0 | h0
        · exact absurd h0.symm ht
        · exact h0
      obtain ⟨n, hfind, hlt, hid⟩ := findIdxId_mem hmem
      exact ⟨n + 1, by simp [findIdxId, ht, hfind], Nat.succ_lt_succ hlt, by simpa using hid⟩

/-- Lemma: `arrayMove` at two valid non-negative indices is the standard
remove-then-insert single-element move. -/
theorem arrayMove_of_lt {l : List Todo} {iN jN : Nat}
    (hi : iN < l.length) (hj : jN < l.length) :
    arrayMove l (iN : Int) (jN : Int) = (l.eraseIdx iN).insertIdx jN (l.get ⟨iN, hi⟩) := by
  have hineg : ¬ ((iN : Int) < 0) := by omega
  have hjneg : ¬ ((jN : Int) < 0) := by omega
  have hstart : spliceStart l.length (iN : Int) = iN := by
    simp only [spliceStart]
    rw [if_neg hineg]
    omega
  have hget : l[iN]? = some (l.get ⟨iN, hi⟩) := by
    simp [List.getElem?_eq_getElem hi]
  have hlen : (l.eraseIdx iN).length = l.length - 1 := by
    simp [List.length_eraseIdx, hi]
  have hstart2 : spliceStart (l.eraseIdx iN).length (jN : Int) = jN := by
    simp only [spliceStart, hlen]
    rw [if_neg hjneg]
    omega
  simp only [arrayMove, spliceRemoveOne, hstart, hget, spliceInsert, if_neg hjneg, hstart2]

/-- Putting the element at a valid index back in front of the remainder is a
permutation of the original list. -/
theorem get_cons_eraseIdx_perm {α : Type} :
    ∀ (l : List α) (iN : Nat) (hi : iN < l.length),
      ((l.get ⟨iN, hi⟩) :: l.eraseIdx iN).Perm l
  | [], iN, hi => by simp at hi
  | t :: ts, 0, _ => by simp
  | t :: ts, iN + 1, hi => by
    have hi' : iN < ts.length := Nat.lt_of_succ_lt_succ hi
    have h1 : ((t :: ts).get ⟨iN + 1, hi⟩ :: (t :: ts).eraseIdx (iN + 1))
        = (ts.get ⟨iN, hi'⟩ :: t :: ts.eraseIdx iN) := by simp
    rw [h1]
    exact (List.Perm.swap t _ _).trans ((get_cons_eraseIdx_perm ts iN hi').cons t)

/-- Erasing an element the filter already drops does not change the filter. -/
theorem filter_eraseIdx_of_neg {α : Type} {p : α → Bool} :
    ∀ (l : List α) (iN : Nat) (hi : iN < l.length),
      p (l.get ⟨iN, hi⟩) = false → (l.eraseIdx iN).filter p = l.filter p
  | [], iN, hi, _ => by simp at hi
  | t :: ts, 0, _, hp => by simp at hp; simp [List.filter_cons, hp]
  | t :: ts, iN + 1, hi, hp => by
    have hi' : iN < ts.length := Nat.lt_of_succ_lt_succ hi
    have hp' : p (ts.get ⟨iN, hi'⟩) = false := by simpa using hp
    simp only [List.eraseIdx_cons_succ, List.filter_cons,
      filter_eraseIdx_of_neg ts iN hi' hp']

/-- Inserting an element the filter drops does not change the filter. -/
theorem filter_insertIdx_of_neg {α : Type} {p : α → Bool} {a : α} (hpa : p a = false) :
    ∀ (n : Nat) (l : List α), n ≤ l.length →
      (l.insertIdx n a).filter p = l.filter p
  | 0, l, _ => by simp [List.insertIdx_zero, List.filter_cons, hpa]
  | n + 1, [], h => by simp at h
  | n + 1, x :: xs, h => by
    have h' : n ≤ xs.length := Nat.le_of_succ_le_succ h
    simp only [List.insertIdx_succ_cons, List.filter_cons,
      filter_insertIdx_of_neg hpa n xs h']

/-- Re-stamping keeps the sequence of ids. -/
theorem restamp_map_id (now : Int) (cid : String) :
    ∀ (i : Nat) (l : List Todo), (restamp now cid i l).map Todo.id = l.map Todo.id
  | _, [] => by simp [restamp]
  | i, t :: ts => by simp [restamp, restamp_map_id now cid (i + 1) ts]

/-- Re-stamping keeps the sequence of (id, text, done) triples. -/
theorem restamp_map_identityView (now : Int) (cid : String) :
    ∀ (i : Nat) (l : List Todo),
      (restamp now cid i l).map identityView = l.map identityView
  | _, [] => by simp [restamp]
  | i, t :: ts => by
    simp [restamp, identityView, restamp_map_identityView now cid (i + 1) ts]

/-- Re-stamping keeps the length. -/
theorem restamp_length (now : Int) (cid : String) :
    ∀ (i : Nat) (l : List Todo), (restamp now cid i l).length = l.length
  | _, [] => by simp [restamp]
  | i, t :: ts => by simp [restamp, restamp_length now cid (i + 1) ts]

/-- Re-stamping assigns the consecutive order values `i+1, i+2, ...`. -/
theorem restamp_map_order (now : Int) (cid : String) :
    ∀ (i : Nat) (l : List Todo),
      (restamp now cid i l).map Todo.order =
        (List.range' (i + 1) l.length).map fun n => (n : Int)
  | _, [] => by simp [restamp]
  | i, t :: ts => by
    simp [restamp, List.range'_succ, restamp_map_order now cid (i + 1) ts]

/-- The ids surviving a filter that only inspects ids are unaffected by
re-stamping. -/
theorem restamp_filter_map_id (now : Int) (cid : String) (p : Todo → Bool)
    (hp : ∀ s t : Todo, s.id = t.id → p s = p t) :
    ∀ (i : Nat) (l : List Todo),
      ((restamp now cid i l).filter p).map Todo.id = (l.filter p).map Todo.id
  | _, [] => by simp [restamp]
  | i, t :: ts => by
    have hpt : p { t with order := (i : Int) + 1, updatedAt := now, updatedBy := cid } = p t :=
      hp _ _ rfl
    by_cases h : p t
    · simp [restamp, List.filter_cons, hpt, h,
        restamp_filter_map_id now cid p hp (i + 1) ts]
    · simp [restamp, List.filter_cons, hpt, h,
        restamp_filter_map_id now cid p hp (i + 1) ts]

/-- The rendered view of the re-stamped list does not depend on the clock
reading or the client identifier. -/
theorem restamp_map_listedView (n1 n2 : Int) (c1 c2 : String) :
    ∀ (i : Nat) (l : List Todo),
      (restamp n1 c1 i l).map listedView = (restamp n2 c2 i l).map listedView
  | _, [] => by simp [restamp]
  | i, t :: ts => by
    simp [restamp, listedView, restamp_map_listedView n1 n2 c1 c2 (i + 1) ts]

/-- In the acting case (drop target present, distinct ids, both ids in the
list) `handleDragEnd` is the remove/re-insert move followed by `restamp`. -/
theorem handleDragEnd_acting {S : List Todo} {activeId overId : String}
    (now : Int) (cid : String)
    (ha : activeId ∈ S.map Todo.id) (ho : overId ∈ S.map Todo.id)
    (hne : activeId ≠ overId) :
    ∃ (iN jN : Nat) (hi : iN < S.length), jN < S.length ∧
      (S.get ⟨iN, hi⟩).id = activeId ∧
      handleDragEnd S activeId (some overId) now cid =
        restamp now cid 0 ((S.eraseIdx iN).insertIdx jN (S.get ⟨iN, hi⟩)) := by
  obtain ⟨iN, hfa, hi, hida⟩ := findIdxId_mem ha
  obtain ⟨jN, hfo, hj, _⟩ := findIdxId_mem ho
  refine ⟨iN, jN, hi, hj, hida, ?_⟩
  simp only [handleDragEnd, if_neg hne, findIndexId, hfa, hfo]
  rw [arrayMove_of_lt hi hj]

/-- Claim C1 (amended): `handleDragEnd` is a no-op returning the task list
unchanged when `activeId` equals `overId`, and also when the drag has no drop
target (`over` absent). The claim's further clause — that a missing
`activeId` or `overId` is also a no-op — fails on the code, which performs no
presence check (see `c1_counterexample_missing_id`). -/
theorem c1_reorder_noop (S : List Todo) (x aId : String) (now : Int) (cid : String) :
    handleDragEnd S x (some x) now cid = S ∧ handleDragEnd S aId none now cid = S := by
  constructor
  · simp [handleDragEnd]
  · rfl

/-- Claim C1, counterexample to the missing-id clause: on the two-task list
`[a, b]`, ending a drag with the absent `activeId = "c"` over `"a"` is not a
no-op: `findIndex` yields `-1`, `arrayMove` therefore moves the LAST task to
the front, and every task is renumbered and re-stamped. -/
theorem c1_counterexample_missing_id :
    ("c" ∉ ([⟨"a", "ta", false, 1, 10, "u0"⟩,
      ⟨"b", "tb", false, 2, 10, "u0"⟩] : List Todo).map Todo.id) ∧
    handleDragEnd [⟨"a", "ta", false, 1, 10, "u0"⟩, ⟨"b", "tb", false, 2, 10, "u0"⟩]
        "c" (some "a") 5 "u"
      = [⟨"b", "tb", false, 1, 5, "u"⟩, ⟨"a", "ta", false, 2, 5, "u"⟩] ∧
    handleDragEnd [⟨"a", "ta", false, 1, 10, "u0"⟩, ⟨"b", "tb", false, 2, 10, "u0"⟩]
        "c" (some "a") 5 "u"
      ≠ [⟨"a", "ta", false, 1, 10, "u0"⟩, ⟨"b", "tb", false, 2, 10, "u0"⟩] :=
  ⟨by decide, by decide, by decide⟩

/-- Claim C4: adding a blank (empty or whitespace-only) input is a no-op:
the early return `if (!trimmed) return;` fires before any task is
constructed, so neither the local list nor the remote store is touched
(result `none`, see the modelling conventions). -/
theorem c4_add_blank_noop (todos : List Todo) (text freshId : String) (now : Int)
    (cid : String) (h : jsTrim text = "") :
    addTodo todos text freshId now cid = none := by
  simp [addTodo, h]

theorem c4_add_blank_noop_witness :
    jsTrim "   " = "" ∧ addTodo [] "   " "id9" 5 "u" = none :=
  ⟨by decide, c4_add_blank_noop [] "   " "id9" 5 "u" (by decide)⟩

/-- Claim C5 (amended): a null/absent — more generally any falsy — snapshot
resets the local list to the empty sequence, and a well-formed snapshot (an
object whose values are task objects) replaces the local list with exactly
those task values (a permutation of them) sorted ascending by their `order`
field; but a truthy MALFORMED snapshot is NOT treated as empty: the `!val`
check passes and its `Object.values` flow through the sort into the local
list unchecked (see `c5_counterexample_malformed`). -/
theorem c5_snapshot_replaces (kvs : List (String × Todo)) :
    onTodosSnapshot JSVal.jnull = [] ∧
    (∀ v, jsFalsy v = true → onTodosSnapshot v = []) ∧
    (onTodosSnapshot (JSVal.jobj (kvs.map fun p => (p.1, todoToJS p.2)))).Perm
      (kvs.map fun p => todoToJS p.2) ∧
    List.Pairwise (fun a b => jsOrderKey a ≤ jsOrderKey b)
      (onTodosSnapshot (JSVal.jobj (kvs.map fun p => (p.1, todoToJS p.2)))) ∧
    (∀ t : Todo, jsOrderKey (todoToJS t) = t.order) := by
  have hobj : onTodosSnapshot (JSVal.jobj (kvs.map fun p => (p.1, todoToJS p.2)))
      = (kvs.map fun p => todoToJS p.2).mergeSort
          (fun a b => jsOrderKey a ≤ jsOrderKey b) := by
    simp only [onTodosSnapshot, jsFalsy, jsObjectValues, List.map_map,
      Bool.false_eq_true, if_false]
    rfl
  refine ⟨rfl, ?_, ?_, ?_, fun t => rfl⟩
  · intro v h
    simp [onTodosSnapshot, h]
  · rw [hobj]
    exact List.mergeSort_perm _ _
  · rw [hobj]
    have htrans : ∀ a b c : JSVal, (decide (jsOrderKey a ≤ jsOrderKey b)) = true →
        (decide (jsOrderKey b ≤ jsOrderKey c)) = true →
        (decide (jsOrderKey a ≤ jsOrderKey c)) = true := by
      intro a b c hab hbc
      simp only [decide_eq_true_eq] at hab hbc ⊢
      omega
    have htot : ∀ a b : JSVal,
        ((decide (jsOrderKey a ≤ jsOrderKey b)) ||
          (decide (jsOrderKey b ≤ jsOrderKey a))) = true := by
      intro a b
      simp only [Bool.or_eq_true, decide_eq_true_eq]
      omega
    have hs := List.sorted_mergeSort htrans htot (kvs.map fun p => todoToJS p.2)
    exact hs.imp fun hab => of_decide_eq_true hab

theorem c5_snapshot_replaces_witness :
    onTodosSnapshot JSVal.jnull = [] ∧
    jsFalsy (JSVal.jbool false) = true ∧
    onTodosSnapshot (JSVal.jbool false) = [] ∧
    (onTodosSnapshot (JSVal.jobj [("k1", todoToJS ⟨"c", "tc", false, 3, 10, "u0"⟩),
        ("k2", todoToJS ⟨"a", "ta", false, 1, 10, "u0"⟩)])).Perm
      [todoToJS ⟨"c", "tc", false, 3, 10, "u0"⟩, todoToJS ⟨"a", "ta", false, 1, 10, "u0"⟩] ∧
    List.Pairwise (fun a b => jsOrderKey a ≤ jsOrderKey b)
      (onTodosSnapshot (JSVal.jobj [("k1", todoToJS ⟨"c", "tc", false, 3, 10, "u0"⟩),
        ("k2", todoToJS ⟨"a", "ta", false, 1, 10, "u0"⟩)])) ∧
    jsOrderKey (todoToJS ⟨"c", "tc", false, 3, 10, "u0"⟩) = 3 :=
  ⟨(c5_snapshot_replaces [("k1", ⟨"c", "tc", false, 3, 10, "u0"⟩),
      ("k2", ⟨"a", "ta", false, 1, 10, "u0"⟩)]).1,
    rfl,
    (c5_snapshot_replaces [("k1", ⟨"c", "tc", false, 3, 10, "u0"⟩),
      ("k2", ⟨"a", "ta", false, 1, 10, "u0"⟩)]).2.1 (JSVal.jbool false) rfl,
    (c5_snapshot_replaces [("k1", ⟨"c", "tc", false, 3, 10, "u0"⟩),
      ("k2", ⟨"a", "ta", false, 1, 10, "u0"⟩)]).2.2.1,
    (c5_snapshot_replaces [("k1", ⟨"c", "tc", false, 3, 10, "u0"⟩),
      ("k2", ⟨"a", "ta", false, 1, 10, "u0"⟩)]).2.2.2.1,
    (c5_snapshot_replaces [("k1", ⟨"c", "tc", false, 3, 10, "u0"⟩),
      ("k2", ⟨"a", "ta", false, 1, 10, "u0"⟩)]).2.2.2.2 ⟨"c", "tc", false, 3, 10, "u0"⟩⟩

/-- Claim C5, counterexample to the malformed-to-empty clause: the truthy
malformed snapshot `{k: 5}` — an object whose value is not task-shaped —
passes the `if (!val)` check, and its `Object.values` flow through the sort
into the local list: the result is a one-element list, not the empty
sequence the claim requires. -/
theorem c5_counterexample_malformed :
    jsFalsy (JSVal.jobj [("k", JSVal.jnum 5)]) = false ∧
    onTodosSnapshot (JSVal.jobj [("k", JSVal.jnum 5)]) ≠ [] := by
  refine ⟨rfl, ?_⟩
  intro h
  have hp := List.mergeSort_perm [JSVal.jnum 5] fun a b => jsOrderKey a ≤ jsOrderKey b
  have hlen := hp.length_eq
  have hu : onTodosSnapshot (JSVal.jobj [("k", JSVal.jnum 5)])
      = ([JSVal.jnum 5]).mergeSort (fun a b => jsOrderKey a ≤ jsOrderKey b) := rfl
  rw [hu] at h
  rw [h] at hlen
  simp at hlen

/-- Claim C7: toggling or deleting an id that no task carries leaves the
task list unchanged: `toggleTodo` maps every task to itself and `deleteTodo`
filters nothing out. -/
theorem c7_toggle_delete_missing_noop (todos : List Todo) (i : String) (now : Int)
    (cid : String) (h : i ∉ todos.map Todo.id) :
    toggleTodo todos i now cid = todos ∧ deleteTodo todos i = todos := by
  have hne : ∀ t ∈ todos, t.id ≠ i := by
    intro t ht heq
    exact h (List.mem_map.mpr ⟨t, ht, heq⟩)
  constructor
  · have hpt : ∀ t ∈ todos,
        (if t.id = i then { t with done := !t.done, updatedAt := now, updatedBy := cid }
          else t) = id t := by
      intro t ht
      rw [if_neg (hne t ht)]
      rfl
    unfold toggleTodo
    rw [List.map_congr_left hpt, List.map_id]
  · unfold deleteTodo
    rw [List.filter_eq_self.mpr]
    intro t ht
    simpa using hne t ht

theorem c7_toggle_delete_missing_noop_witness :
    ("z" ∉ ([⟨"a", "ta", false, 1, 10, "u0"⟩] : List Todo).map Todo.id) ∧
    toggleTodo [⟨"a", "ta", false, 1, 10, "u0"⟩] "z" 7 "u" = [⟨"a", "ta", false, 1, 10, "u0"⟩] ∧
    deleteTodo [⟨"a", "ta", false, 1, 10, "u0"⟩] "z" = [⟨"a", "ta", false, 1, 10, "u0"⟩] :=
  ⟨by decide, c7_toggle_delete_missing_noop [⟨"a", "ta", false, 1, 10, "u0"⟩] "z" 7 "u" (by decide)⟩

/-- Claim C8: a pushed presence record carrying this session's own
`sessionId` is exposed as `none` (self-echo suppressed) whatever its
`itemId`/`overId` are, while a record from another session is exposed
unchanged. -/
theorem c8_presence_self_suppressed (item : String) (over : Option String)
    (sid : String) (v : RemoteDragState) (h : v.sessionId ≠ sid) :
    onDraggingSnapshot (some ⟨item, over, sid⟩) sid = none ∧
    onDraggingSnapshot (some v) sid = some v := by
  constructor
  · simp [onDraggingSnapshot]
  · simp [onDraggingSnapshot, h]

/-- A left fold of binary `max` over integers computes an upper bound that is
either the seed or an element of the list. -/
theorem foldl_max_spec : ∀ (xs : List Int) (x : Int),
    (xs.foldl max x = x ∨ xs.foldl max x ∈ xs) ∧
    x ≤ xs.foldl max x ∧ ∀ y ∈ xs, y ≤ xs.foldl max x
  | [], x => by simp
  | y :: ys, x => by
    obtain ⟨h1, h2, h3⟩ := foldl_max_spec ys (max x y)
    refine ⟨?_, ?_, ?_⟩
    · rcases h1 with h1 | h1
      · rcases max_choice x y with hm | hm
        · exact Or.inl (by rw [List.foldl_cons, h1, hm])
        · exact Or.inr (by rw [List.foldl_cons, h1, hm]; exact List.mem_cons_self y ys)
      · exact Or.inr (List.mem_cons_of_mem y h1)
    · exact le_trans (le_max_left x y) h2
    · intro z hz
      rcases List.mem_cons.mp hz with hz | hz
      · rw [hz]
        exact le_trans (le_max_right x y) h2
      · exact h3 z hz

/-- Lemma: `maxOrderOf` of a non-empty list is its greatest `order` value. -/
theorem maxOrderOf_spec {todos : List Todo} (h : todos ≠ []) :
    maxOrderOf todos ∈ todos.map Todo.order ∧
    ∀ o ∈ todos.map Todo.order, o ≤ maxOrderOf todos := by
  match todos with
  | [] => exact absurd rfl h
  | t :: ts =>
    obtain ⟨h1, h2, h3⟩ := foldl_max_spec (ts.map Todo.order) t.order
    constructor
    · rcases h1 with h1 | h1
      · simp [maxOrderOf, h1]
      · simp only [maxOrderOf, List.map_cons, List.mem_cons]
        exact Or.inr h1
    · intro o ho
      simp only [List.map_cons, List.mem_cons] at ho
      rcases ho with ho | ho
      · subst ho
        exact h2
      · exact h3 o ho

/-- The updated-at stamp written by `toggleTodo` on every matching task is
exactly the clock reading of that operation. -/
theorem toggleTodo_updatedAt (l : List Todo) (i : String) (now : Int) (cid : String) :
    ∀ t ∈ toggleTodo l i now cid, t.id = i → t.updatedAt = now := by
  intro t ht hid
  obtain ⟨s, hs, hst⟩ := List.mem_map.mp ht
  by_cases h : s.id = i
  · rw [← hst]; simp [h]
  · rw [← hst] at hid ⊢
    simp [h] at hid ⊢

theorem c8_presence_self_suppressed_witness :
    (RemoteDragState.mk "i1" (some "i2") "s2").sessionId ≠ "s1" ∧
    onDraggingSnapshot (some ⟨"i1", some "i2", "s1"⟩) "s1" = none ∧
    onDraggingSnapshot (some ⟨"i1", some "i2", "s2"⟩) "s1" = some ⟨"i1", some "i2", "s2"⟩ :=
  ⟨by decide,
    c8_presence_self_suppressed "i1" (some "i2") "s1" ⟨"i1", some "i2", "s2"⟩ (by decide)⟩

/-- Claim C3: adding a non-blank input appends exactly one new task with
`done = false`, the freshly generated id, and `order` one greater than the
greatest existing `order` value (and `maxOrder` is 0 on an empty list, so
the first task gets order 1); when the fresh id does not collide, the id of
every task stays unique. -/
theorem c3_add_appends (todos : List Todo) (text freshId : String) (now : Int)
    (cid : String) (h : jsTrim text ≠ "") :
    addTodo todos text freshId now cid =
      some (todos ++
        [{ id := freshId, text := jsTrim text, done := false,
           order := maxOrderOf todos + 1, updatedAt := now, updatedBy := cid }]) ∧
    (todos = [] → maxOrderOf todos + 1 = 1) ∧
    (todos ≠ [] → maxOrderOf todos ∈ todos.map Todo.order ∧
      ∀ o ∈ todos.map Todo.order, o ≤ maxOrderOf todos) ∧
    ((todos.map Todo.id).Nodup → freshId ∉ todos.map Todo.id →
      ((todos ++
        [({ id := freshId, text := jsTrim text, done := false,
            order := maxOrderOf todos + 1, updatedAt := now, updatedBy := cid } : Todo)]).map
          Todo.id).Nodup) := by
  refine ⟨by simp [addTodo, h], ?_, fun hne => maxOrderOf_spec hne, ?_⟩
  · rintro rfl
    simp [maxOrderOf]
  · intro hnd hfresh
    simp only [List.map_append, List.map_cons, List.map_nil]
    rw [List.nodup_append]
    refine ⟨hnd, List.nodup_singleton _, ?_⟩
    intro a ha hb
    simp only [List.mem_singleton] at hb
    subst hb
    exact hfresh ha

theorem c3_add_appends_witness :
    jsTrim "x" ≠ "" ∧
    (addTodo [] "x" "id9" 5 "u" =
      some (([] : List Todo) ++
        [{ id := "id9", text := jsTrim "x", done := false,
           order := maxOrderOf [] + 1, updatedAt := 5, updatedBy := "u" }]) ∧
    (([] : List Todo) = [] → maxOrderOf ([] : List Todo) + 1 = 1) ∧
    (([] : List Todo) ≠ [] → maxOrderOf ([] : List Todo) ∈ ([] : List Todo).map Todo.order ∧
      ∀ o ∈ ([] : List Todo).map Todo.order, o ≤ maxOrderOf ([] : List Todo)) ∧
    ((([] : List Todo).map Todo.id).Nodup → "id9" ∉ ([] : List Todo).map Todo.id →
      ((([] : List Todo) ++
        [({ id := "id9", text := jsTrim "x", done := false,
            order := maxOrderOf [] + 1, updatedAt := 5, updatedBy := "u" } : Todo)]).map
          Todo.id).Nodup)) :=
  ⟨by decide, c3_add_appends [] "x" "id9" 5 "u" (by decide)⟩

/-- Claim C6 (amended): toggling a present id twice returns every task's
`done` flag to its original value, and the `updatedAt` stamps written by the
two operations are exactly the two clock readings, so they differ whenever
the two operations observe distinct clock values. (`Date.now()` has
millisecond resolution and may repeat, so the claim's unconditional
"the stamps differ" fails: see `c6_counterexample_same_clock`.) -/
theorem c6_toggle_twice (l : List Todo) (i : String) (n1 n2 : Int) (c1 c2 : String)
    (hmem : i ∈ l.map Todo.id) (hn : n1 ≠ n2) :
    ((toggleTodo (toggleTodo l i n1 c1) i n2 c2).map fun t => (t.id, t.done)) =
      (l.map fun t => (t.id, t.done)) ∧
    (∃ t1 ∈ toggleTodo l i n1 c1, t1.id = i) ∧
    (∀ t1 ∈ toggleTodo l i n1 c1, ∀ t2 ∈ toggleTodo (toggleTodo l i n1 c1) i n2 c2,
      t1.id = i → t2.id = i → t1.updatedAt ≠ t2.updatedAt) := by
  refine ⟨?_, ?_, ?_⟩
  · simp only [toggleTodo, List.map_map]
    apply List.map_congr_left
    intro t ht
    by_cases h : t.id = i
    · simp [Function.comp, h]
    · simp [Function.comp, h]
  · obtain ⟨t, ht, hid⟩ := List.mem_map.mp hmem
    refine ⟨_, List.mem_map.mpr ⟨t, ht, rfl⟩, ?_⟩
    simp [hid]
  · intro t1 h1 t2 h2 hid1 hid2
    rw [toggleTodo_updatedAt l i n1 c1 t1 h1 hid1,
      toggleTodo_updatedAt (toggleTodo l i n1 c1) i n2 c2 t2 h2 hid2]
    exact hn

theorem c6_toggle_twice_witness :
    ("a" ∈ ([⟨"a", "ta", false, 1, 0, "u0"⟩] : List Todo).map Todo.id) ∧ (7 : Int) ≠ 8 ∧
    (((toggleTodo (toggleTodo [⟨"a", "ta", false, 1, 0, "u0"⟩] "a" 7 "u") "a" 8 "u").map
        fun t => (t.id, t.done)) =
      ([⟨"a", "ta", false, 1, 0, "u0"⟩] : List Todo).map fun t => (t.id, t.done)) ∧
    (∃ t1 ∈ toggleTodo [⟨"a", "ta", false, 1, 0, "u0"⟩] "a" 7 "u", t1.id = "a") ∧
    (∀ t1 ∈ toggleTodo [⟨"a", "ta", false, 1, 0, "u0"⟩] "a" 7 "u",
      ∀ t2 ∈ toggleTodo (toggleTodo [⟨"a", "ta", false, 1, 0, "u0"⟩] "a" 7 "u") "a" 8 "u",
      t1.id = "a" → t2.id = "a" → t1.updatedAt ≠ t2.updatedAt) :=
  ⟨by decide, by decide,
    c6_toggle_twice [⟨"a", "ta", false, 1, 0, "u0"⟩] "a" 7 8 "u" "u" (by decide) (by decide)⟩

/-- Claim C6, counterexample to the stamps-differ clause: when the two
toggle operations read the same millisecond clock value (here 7), the double
toggle still returns `done` to its original value, but both operations write
the SAME `updatedAt` stamp, so the two stamps do not differ. -/
theorem c6_counterexample_same_clock :
    toggleTodo [⟨"a", "ta", false, 1, 0, "u0"⟩] "a" 7 "u" = [⟨"a", "ta", true, 1, 7, "u"⟩] ∧
    toggleTodo [⟨"a", "ta", true, 1, 7, "u"⟩] "a" 7 "u" = [⟨"a", "ta", false, 1, 7, "u"⟩] ∧
    ((toggleTodo (toggleTodo [⟨"a", "ta", false, 1, 0, "u0"⟩] "a" 7 "u") "a" 7 "u").map
        Todo.updatedAt) =
      (toggleTodo [⟨"a", "ta", false, 1, 0, "u0"⟩] "a" 7 "u").map Todo.updatedAt :=
  ⟨by decide, by decide, by decide⟩

/-- Claim C2: ending a drag with distinct ids both present returns a
sequence with the same ids as `S` (a permutation), whose `order` fields are
exactly 1..len(S) assigned in sequence position, and in which the relative
order of all ids other than `activeId` is unchanged; in particular, on the
three-task list `[a(1), b(2), c(3)]` moving `a` onto `c` yields
`[b(1), c(2), a(3)]`. -/
theorem c2_reorder_moves (S : List Todo) (activeId overId : String) (now : Int)
    (cid : String) (ha : activeId ∈ S.map Todo.id) (ho : overId ∈ S.map Todo.id)
    (hne : activeId ≠ overId) :
    ((handleDragEnd S activeId (some overId) now cid).map Todo.id).Perm (S.map Todo.id) ∧
    (handleDragEnd S activeId (some overId) now cid).map Todo.order =
      (List.range' 1 S.length).map (fun n => (n : Int)) ∧
    ((handleDragEnd S activeId (some overId) now cid).filter
        (fun t => t.id ≠ activeId)).map Todo.id =
      (S.filter (fun t => t.id ≠ activeId)).map Todo.id ∧
    handleDragEnd [⟨"a", "ta", false, 1, 10, "u0"⟩, ⟨"b", "tb", false, 2, 10, "u0"⟩,
        ⟨"c", "tc", false, 3, 10, "u0"⟩] "a" (some "c") now cid =
      [⟨"b", "tb", false, 1, now, cid⟩, ⟨"c", "tc", false, 2, now, cid⟩,
        ⟨"a", "ta", false, 3, now, cid⟩] := by
  obtain ⟨iN, jN, hi, hj, hida, hR⟩ := handleDragEnd_acting now cid ha ho hne
  have herlen : (S.eraseIdx iN).length = S.length - 1 := by
    rw [List.length_eraseIdx, if_pos hi]
  have hjle : jN ≤ (S.eraseIdx iN).length := by
    rw [herlen]
    omega
  have hperm : ((S.eraseIdx iN).insertIdx jN (S.get ⟨iN, hi⟩)).Perm S :=
    (List.perm_insertIdx _ _ hjle).trans (get_cons_eraseIdx_perm S iN hi)
  have hlen : ((S.eraseIdx iN).insertIdx jN (S.get ⟨iN, hi⟩)).length = S.length := by
    rw [List.length_insertIdx _ _ hjle, herlen]
    omega
  refine ⟨?_, ?_, ?_, ?_⟩
  · rw [hR, restamp_map_id]
    exact hperm.map Todo.id
  · rw [hR, restamp_map_order, hlen]
  · rw [hR]
    have hstep := restamp_filter_map_id now cid (fun t => decide (t.id ≠ activeId))
      (fun s t hst => by simp [hst]) 0 ((S.eraseIdx iN).insertIdx jN (S.get ⟨iN, hi⟩))
    rw [hstep]
    have hida' : S[iN].id = activeId := by
      simpa using hida
    have hpa : decide ((S.get ⟨iN, hi⟩).id ≠ activeId) = false := by
      simp [hida']
    rw [@filter_insertIdx_of_neg Todo (fun t => decide (t.id ≠ activeId)) (S.get ⟨iN, hi⟩)
      hpa jN (S.eraseIdx iN) hjle]
    rw [@filter_eraseIdx_of_neg Todo (fun t => decide (t.id ≠ activeId)) S iN hi hpa]
  · rfl

theorem c2_reorder_moves_witness :
    ("a" ∈ ([⟨"a", "ta", false, 1, 10, "u0"⟩, ⟨"b", "tb", false, 2, 10, "u0"⟩,
      ⟨"c", "tc", false, 3, 10, "u0"⟩] : List Todo).map Todo.id) ∧
    ("c" ∈ ([⟨"a", "ta", false, 1, 10, "u0"⟩, ⟨"b", "tb", false, 2, 10, "u0"⟩,
      ⟨"c", "tc", false, 3, 10, "u0"⟩] : List Todo).map Todo.id) ∧
    ("a" : String) ≠ "c" ∧
    (((handleDragEnd [⟨"a", "ta", false, 1, 10, "u0"⟩, ⟨"b", "tb", false, 2, 10, "u0"⟩,
        ⟨"c", "tc", false, 3, 10, "u0"⟩] "a" (some "c") 5 "u").map Todo.id).Perm
      (([⟨"a", "ta", false, 1, 10, "u0"⟩, ⟨"b", "tb", false, 2, 10, "u0"⟩,
        ⟨"c", "tc", false, 3, 10, "u0"⟩] : List Todo).map Todo.id) ∧
    (handleDragEnd [⟨"a", "ta", false, 1, 10, "u0"⟩, ⟨"b", "tb", false, 2, 10, "u0"⟩,
        ⟨"c", "tc", false, 3, 10, "u0"⟩] "a" (some "c") 5 "u").map Todo.order =
      (List.range' 1 ([⟨"a", "ta", false, 1, 10, "u0"⟩, ⟨"b", "tb", false, 2, 10, "u0"⟩,
        ⟨"c", "tc", false, 3, 10, "u0"⟩] : List Todo).length).map (fun n => (n : Int)) ∧
    ((handleDragEnd [⟨"a", "ta", false, 1, 10, "u0"⟩, ⟨"b", "tb", false, 2, 10, "u0"⟩,
        ⟨"c", "tc", false, 3, 10, "u0"⟩] "a" (some "c") 5 "u").filter
        (fun t => t.id ≠ "a")).map Todo.id =
      (([⟨"a", "ta", false, 1, 10, "u0"⟩, ⟨"b", "tb", false, 2, 10, "u0"⟩,
        ⟨"c", "tc", false, 3, 10, "u0"⟩] : List Todo).filter
        (fun t => t.id ≠ "a")).map Todo.id ∧
    handleDragEnd [⟨"a", "ta", false, 1, 10, "u0"⟩, ⟨"b", "tb", false, 2, 10, "u0"⟩,
        ⟨"c", "tc", false, 3, 10, "u0"⟩] "a" (some "c") 5 "u" =
      [⟨"b", "tb", false, 1, 5, "u"⟩, ⟨"c", "tc", false, 2, 5, "u"⟩,
        ⟨"a", "ta", false, 3, 5, "u"⟩]) :=
  ⟨by decide, by decide, by decide,
    c2_reorder_moves [⟨"a", "ta", false, 1, 10, "u0"⟩, ⟨"b", "tb", false, 2, 10, "u0"⟩,
      ⟨"c", "tc", false, 3, 10, "u0"⟩] "a" "c" 5 "u" (by decide) (by decide) (by decide)⟩

/-- Claim C9 (amended): `handleDragEnd` is a pure, deterministic function of
the quintuple (sequence, activeId, overId, clock reading, client id); its
projection to the rendered fields (id, text, done, order) depends only on
the triple (sequence, activeId, overId); and whenever a move actually
happens the returned `order` values are contiguous ascending 1..N. The
claim's "function of exactly the triple" fails because the current clock
reading and client id are stamped into `updatedAt`/`updatedBy`: see
`c9_counterexample_time_dependence`. -/
theorem c9_reorder_pure (S : List Todo) (aId : String) (over : Option String)
    (n1 n2 : Int) (c1 c2 : String) :
    (handleDragEnd S aId over n1 c1).map listedView =
      (handleDragEnd S aId over n2 c2).map listedView ∧
    (∀ o, over = some o → aId ≠ o →
      (handleDragEnd S aId over n1 c1).map Todo.order =
        (List.range' 1 (handleDragEnd S aId over n1 c1).length).map (fun n => (n : Int))) := by
  constructor
  · match over with
    | none => rfl
    | some o =>
      by_cases h : aId = o
      · simp [handleDragEnd, h]
      · simp only [handleDragEnd, if_neg h]
        exact restamp_map_listedView n1 n2 c1 c2 0 _
  · rintro o rfl h
    simp only [handleDragEnd, if_neg h]
    rw [restamp_map_order, restamp_length]

theorem c9_reorder_pure_witness :
    ((handleDragEnd [⟨"a", "ta", false, 1, 10, "u0"⟩, ⟨"b", "tb", false, 2, 10, "u0"⟩]
        "a" (some "b") 0 "u").map listedView =
      (handleDragEnd [⟨"a", "ta", false, 1, 10, "u0"⟩, ⟨"b", "tb", false, 2, 10, "u0"⟩]
        "a" (some "b") 1 "v").map listedView) ∧
    (handleDragEnd [⟨"a", "ta", false, 1, 10, "u0"⟩, ⟨"b", "tb", false, 2, 10, "u0"⟩]
        "a" (some "b") 0 "u").map Todo.order =
      (List.range' 1 (handleDragEnd [⟨"a", "ta", false, 1, 10, "u0"⟩,
        ⟨"b", "tb", false, 2, 10, "u0"⟩] "a" (some "b") 0 "u").length).map (fun n => (n : Int)) :=
  ⟨(c9_reorder_pure [⟨"a", "ta", false, 1, 10, "u0"⟩, ⟨"b", "tb", false, 2, 10, "u0"⟩]
      "a" (some "b") 0 1 "u" "v").1,
    (c9_reorder_pure [⟨"a", "ta", false, 1, 10, "u0"⟩, ⟨"b", "tb", false, 2, 10, "u0"⟩]
      "a" (some "b") 0 1 "u" "v").2 "b" rfl (by decide)⟩

/-- Claim C9, counterexample to "pure function of exactly the triple": the
same (sequence, activeId, overId) at two different clock readings produces
two different resulting sequences (`updatedAt` differs), so the result also
depends on the clock, not only on the triple. -/
theorem c9_counterexample_time_dependence :
    handleDragEnd [⟨"a", "ta", false, 1, 10, "u0"⟩, ⟨"b", "tb", false, 2, 10, "u0"⟩]
        "a" (some "b") 0 "u"
      ≠ handleDragEnd [⟨"a", "ta", false, 1, 10, "u0"⟩, ⟨"b", "tb", false, 2, 10, "u0"⟩]
        "a" (some "b") 1 "u" := by decide

/-- Claim C10: ending a drag with distinct ids both present preserves the
id, text and done fields of every task — only `order`, `updatedAt` and
`updatedBy` may change: the sequence of (id, text, done) triples of the
result is a permutation of the source's, and every returned task agrees
with some source task on those three fields. -/
theorem c10_reorder_frame (S : List Todo) (activeId overId : String) (now : Int)
    (cid : String) (ha : activeId ∈ S.map Todo.id) (ho : overId ∈ S.map Todo.id)
    (hne : activeId ≠ overId) :
    ((handleDragEnd S activeId (some overId) now cid).map identityView).Perm
      (S.map identityView) ∧
    ∀ t ∈ handleDragEnd S activeId (some overId) now cid,
      ∃ s ∈ S, t.id = s.id ∧ t.text = s.text ∧ t.done = s.done := by
  obtain ⟨iN, jN, hi, hj, hida, hR⟩ := handleDragEnd_acting now cid ha ho hne
  have herlen : (S.eraseIdx iN).length = S.length - 1 := by
    rw [List.length_eraseIdx, if_pos hi]
  have hjle : jN ≤ (S.eraseIdx iN).length := by
    rw [herlen]
    omega
  have hperm : ((S.eraseIdx iN).insertIdx jN (S.get ⟨iN, hi⟩)).Perm S :=
    (List.perm_insertIdx _ _ hjle).trans (get_cons_eraseIdx_perm S iN hi)
  have hmain : ((handleDragEnd S activeId (some overId) now cid).map identityView).Perm
      (S.map identityView) := by
    rw [hR, restamp_map_identityView]
    exact hperm.map identityView
  refine ⟨hmain, ?_⟩
  intro t ht
  have hmem1 : identityView t ∈
      (handleDragEnd S activeId (some overId) now cid).map identityView :=
    List.mem_map.mpr ⟨t, ht, rfl⟩
  have hmem2 : identityView t ∈ S.map identityView := hmain.mem_iff.mp hmem1
  obtain ⟨s, hs, hsv⟩ := List.mem_map.mp hmem2
  simp only [identityView, Prod.mk.injEq] at hsv
  exact ⟨s, hs, hsv.1.symm, hsv.2.1.symm, hsv.2.2.symm⟩

theorem c10_reorder_frame_witness :
    ("a" ∈ ([⟨"a", "ta", false, 1, 10, "u0"⟩, ⟨"b", "tb", true, 2, 10, "u0"⟩,
      ⟨"c", "tc", false, 3, 10, "u0"⟩] : List Todo).map Todo.id) ∧
    ("b" ∈ ([⟨"a", "ta", false, 1, 10, "u0"⟩, ⟨"b", "tb", true, 2, 10, "u0"⟩,
      ⟨"c", "tc", false, 3, 10, "u0"⟩] : List Todo).map Todo.id) ∧
    ("a" : String) ≠ "b" ∧
    (((handleDragEnd [⟨"a", "ta", false, 1, 10, "u0"⟩, ⟨"b", "tb", true, 2, 10, "u0"⟩,
        ⟨"c", "tc", false, 3, 10, "u0"⟩] "a" (some "b") 5 "u").map identityView).Perm
      (([⟨"a", "ta", false, 1, 10, "u0"⟩, ⟨"b", "tb", true, 2, 10, "u0"⟩,
        ⟨"c", "tc", false, 3, 10, "u0"⟩] : List Todo).map identityView) ∧
    ∀ t ∈ handleDragEnd [⟨"a", "ta", false, 1, 10, "u0"⟩, ⟨"b", "tb", true, 2, 10, "u0"⟩,
        ⟨"c", "tc", false, 3, 10, "u0"⟩] "a" (some "b") 5 "u",
      ∃ s ∈ ([⟨"a", "ta", false, 1, 10, "u0"⟩, ⟨"b", "tb", true, 2, 10, "u0"⟩,
        ⟨"c", "tc", false, 3, 10, "u0"⟩] : List Todo),
        t.id = s.id ∧ t.text = s.text ∧ t.done = s.done) :=
  ⟨by decide, by decide, by decide,
    c10_reorder_frame [⟨"a", "ta", false, 1, 10, "u0"⟩, ⟨"b", "tb", true, 2, 10, "u0"⟩,
      ⟨"c", "tc", false, 3, 10, "u0"⟩] "a" "b" 5 "u" (by decide) (by decide) (by decide)⟩

end TodoApp
